import Mathlib

/-!
Verification of the TIM batch re-encoder (tim_operations.py / ui_actions.py).

The Python source is shallowly embedded: byte strings become `List Nat`
(each element a byte value), Python ints become `Nat` (with explicit
masking where the source masks), squared color distances become `Int`
(the source subtracts before squaring), and fallible paths become
`Except String`.
-/

/-- An RGB triple as produced by `Tim_Object.decode` and consumed by the
nearest-color search in `convert_png_tim`. -/
abbrev Rgb := Nat × Nat × Nat

/-- Squared Euclidean distance over (R,G,B), as computed inside
`nearest_index` in `convert_png_tim`:
`(pr - br) ** 2 + (pg - bg) ** 2 + (pb - bb) ** 2`. -/
def sqDist (p q : Rgb) : Int :=
  ((p.1 : Int) - q.1) ^ 2 + ((p.2.1 : Int) - q.2.1) ^ 2 + ((p.2.2 : Int) - q.2.2) ^ 2

/-- The scan loop of `nearest_index` (ui_actions.py lines 317-323): walks the
remaining palette entries `rest`, where `i` is the absolute index of the head
of `rest`, and `(bi, bd)` are the best index and best squared distance so far;
the best is replaced only on a strictly smaller distance. -/
def nearestFrom (px : Rgb) : List Rgb → Nat → Nat → Int → Nat × Int
  | [], _, bi, bd => (bi, bd)
  | c :: rest, i, bi, bd =>
    if sqDist px c < bd then nearestFrom px rest (i + 1) i (sqDist px c)
    else nearestFrom px rest (i + 1) bi bd

/-- `nearest_index` from `convert_png_tim` (ui_actions.py lines 312-323):
best index starts at 0 with the distance to `pal[0]`, then the scan loop runs
from index 1.  The Python code indexes `pal[0]` unconditionally, so an empty
palette is outside its domain; here the empty case returns 0 and theorems
assume a non-empty palette. -/
def nearest_index (pal : List Rgb) (px : Rgb) : Nat :=
  match pal with
  | [] => 0
  | c0 :: rest => (nearestFrom px rest 1 0 (sqDist px c0)).1

/-- The per-pixel index list of the fallback encode path (ui_actions.py lines
325-331): nearest index masked with 0xFF, then every pixel whose alpha is
strictly below 128 is forced to index 0. -/
def encodeIndexes (pal : List Rgb) (pixels : List Rgb) (alphas : List Nat) : List Nat :=
  List.zipWith (fun i a => if a < 128 then 0 else i)
    (pixels.map (fun px => nearest_index pal px &&& 0xFF)) alphas

/-- The 4bpp packing loop (ui_actions.py lines 342-349): byte `m` of the
output covers row `m / (w/2)` and the pixel pair starting at
`x = 2 * (m % (w/2))`; low nibble is the even-x index, high nibble the
odd-x index, each masked with 0x0F. -/
def pack4 (w h : Nat) (idxs : List Nat) : List Nat :=
  (List.range (h * (w / 2))).map (fun m =>
    let y := m / (w / 2)
    let xh := m % (w / 2)
    let i1 := idxs.getD (y * w + 2 * xh) 0 &&& 0x0F
    let i2 := idxs.getD (y * w + 2 * xh + 1) 0 &&& 0x0F
    (i2 <<< 4) ||| i1)

/-- The 4bpp branch of the fallback encoder (ui_actions.py lines 337-349):
an odd width raises, an even width packs two consecutive x-indices per
output byte. -/
def encode4 (w h : Nat) (idxs : List Nat) : Except String (List Nat) :=
  if w % 2 ≠ 0 then .error "Width must be even for 4bpp"
  else .ok (pack4 w h idxs)

/-- The 8bpp branch (ui_actions.py line 335): one byte per index, truncated
to 8 bits. -/
def encode8 (idxs : List Nat) : List Nat :=
  idxs.map (fun v => v &&& 0xFF)

/-- 15-bit color packing of a palette entry (ui_actions.py line 358):
`((r >> 3) & 0x1F) | (((g >> 3) & 0x1F) << 5) | (((b >> 3) & 0x1F) << 10)`. -/
def packColor (c : Rgb) : Nat :=
  ((c.1 >>> 3) &&& 0x1F) ||| ((c.2.1 >>> 3) &&& 0x1F) <<< 5 |||
    ((c.2.2 >>> 3) &&& 0x1F) <<< 10

/-- Color unpacking used by `Tim_Object.decode` (tim_operations.py line 118):
`((color & 0x1F) << 3, ((color >> 5) & 0x1F) << 3, ((color >> 10) & 0x1F) << 3)`. -/
def clutColorOfEntry (e : Nat) : Rgb :=
  ((e &&& 0x1F) <<< 3, ((e >>> 5) &&& 0x1F) <<< 3, ((e >>> 10) &&& 0x1F) <<< 3)

/-- 16-bit little-endian CLUT entry `i` of a raw CLUT byte string, as read by
`np.frombuffer(clut_data, dtype=np.uint16)`. -/
def clutEntryAt (clut : List Nat) (i : Nat) : Nat :=
  clut.getD (2 * i) 0 + 256 * clut.getD (2 * i + 1) 0

/-- The CLUT-section builder of `convert_png_tim` (ui_actions.py lines
356-366): pack every palette color as a 16-bit little-endian value, then pad
by repeating the last two bytes (a zero entry if the palette is empty) up to
`2 * expected` bytes, or truncate down to `2 * expected` bytes. -/
def clutSection (pal : List Rgb) (expected : Nat) : List Nat :=
  let base := pal.flatMap (fun c => [packColor c % 256, packColor c / 256])
  if base.length < 2 * expected then
    let last := if base.length ≥ 2 then
        [base.getD (base.length - 2) 0, base.getD (base.length - 1) 0]
      else [0, 0]
    base ++ (List.replicate (expected - pal.length) last).flatten
  else base.take (2 * expected)

/-- `clut_expected` (ui_actions.py lines 353-355): the declared CLUT grid
product, or the depth default palette size when the product is zero. -/
def clut_expected_of (sx sy psize : Nat) : Nat :=
  if sx * sy = 0 then psize else sx * sy

/-- `palette_size` (ui_actions.py line 282): 16 for the 4-bit format flag,
256 otherwise. -/
def paletteSizeOf (is4 : Bool) : Nat :=
  if is4 then 16 else 256

/-- The fields of a parsed TIM that the re-encode pipeline consults
(`read_tim` / `Tim_Object`).  `format4` is true for the 4-bit format flag
`08 00 00 00` and false for the 8-bit flag `09 00 00 00`;
`pixel_data_width` is the true pixel width, already scaled by `read_tim`
(tim_operations.py lines 32-35); `clut_data` and `pixel_data` are byte
lists. -/
structure TimData where
  format4 : Bool
  clut_coord_x : Nat
  clut_coord_y : Nat
  clut_size_x : Nat
  clut_size_y : Nat
  clut_data : List Nat
  pixel_coord_x : Nat
  pixel_coord_y : Nat
  pixel_data_width : Nat
  pixel_data_height : Nat
  pixel_data : List Nat
  deriving Repr, DecidableEq

/-- Width scaling performed by `read_tim` (tim_operations.py lines 32-35):
the on-disk stored width is multiplied by 4 for the 4-bit flag and by 2 for
the 8-bit flag. -/
def parse_true_width (is4 : Bool) (stored : Nat) : Nat :=
  if is4 then stored * 4 else stored * 2

/-- Stored width recomputed on re-encode (ui_actions.py lines 336 and 350):
`pixel_data_width // 2` for 8bpp and `pixel_data_width // 4` for 4bpp. -/
def encode_stored_width (is4 : Bool) (w : Nat) : Nat :=
  if is4 then w / 4 else w / 2

/-- Share-group key used by `group_by_clut_coords` (ui_actions.py line 113):
`(format_flag, clut_coord_x, clut_coord_y)`. -/
def groupKey (t : TimData) : Bool × Nat × Nat :=
  (t.format4, t.clut_coord_x, t.clut_coord_y)

/-- The CLUT byte section written for one group member by `convert_png_tim`
(ui_actions.py lines 352-366): the shared group palette packed, then padded
or truncated to the member's own expected entry count. -/
def memberClut (t : TimData) (pal : List Rgb) : List Nat :=
  clutSection pal (clut_expected_of t.clut_size_x t.clut_size_y (paletteSizeOf t.format4))

/-- The packed byte holding pixel `(x, y)` as read by `Tim_Object.decode`
(tim_operations.py line 127): the byte at `y * (w/2) + x/2`. -/
def pixByte4 (t : TimData) (x y : Nat) : Nat :=
  t.pixel_data.getD (y * (t.pixel_data_width / 2) + x / 2) 0

/-- The 4-bit pixel index of coordinate `(x, y)` as read by
`Tim_Object.decode` (tim_operations.py lines 124-132): low nibble of the
packed byte for even `x`, high nibble for odd `x`. -/
def pixIndex4 (t : TimData) (x y : Nat) : Nat :=
  if x % 2 = 0 then pixByte4 t x y &&& 0x0F else (pixByte4 t x y >>> 4) &&& 0x0F

/-- The decoded color of coordinate `(x, y)` of a 4-bit TIM
(tim_operations.py lines 117-132). -/
def decodePixel4 (t : TimData) (x y : Nat) : Rgb :=
  clutColorOfEntry (clutEntryAt t.clut_data (pixIndex4 t x y))

/-- The full decoded raster of a 4-bit TIM in row-major order, pixel `k`
being coordinate `(k % width, k / width)`; this is the pixel sequence of the
image produced by `Tim_Object.decode` (and of `getdata()` on the exported
PNG). -/
def decodeRaster4 (t : TimData) : List Rgb :=
  (List.range (t.pixel_data_height * t.pixel_data_width)).map
    (fun k => decodePixel4 t (k % t.pixel_data_width) (k / t.pixel_data_width))

/-- The output record assembled by `convert_png_tim` for one 4-bit group
member (ui_actions.py lines 333-386), restricted to the fields that
`write_tim_file` writes and `read_tim` reads back. -/
structure OutDict where
  tim_format4 : Bool
  clut_coord_x : Nat
  clut_coord_y : Nat
  clut_size_x : Nat
  clut_size_y : Nat
  common_clut : List Nat
  pixel_coord_x : Nat
  pixel_coord_y : Nat
  stored_width_value : Nat
  height : Nat
  new_pixel_data : List Nat
  deriving Repr, DecidableEq

/-- One 4-bit member of a group re-encoded by `convert_png_tim` against the
shared group palette `pal`: the source pixels are the member's previously
exported raster (`decodeRaster4`), whose alpha channel is fully opaque, so
the index list is `encodeIndexes` at alpha 255 and the pixel bytes are the
4bpp packing (ui_actions.py lines 325-331, 337-350, 352-386). -/
def convert_png_tim_member4 (t : TimData) (pal : List Rgb) : OutDict :=
  let w := t.pixel_data_width
  let h := t.pixel_data_height
  let idxs := encodeIndexes pal (decodeRaster4 t) (List.replicate (h * w) 255)
  { tim_format4 := true
    clut_coord_x := t.clut_coord_x
    clut_coord_y := t.clut_coord_y
    clut_size_x := t.clut_size_x
    clut_size_y := t.clut_size_y
    common_clut := memberClut t pal
    pixel_coord_x := t.pixel_coord_x
    pixel_coord_y := t.pixel_coord_y
    stored_width_value := encode_stored_width true w
    height := h
    new_pixel_data := pack4 w h idxs }

/-- Parsing back a written output record with `read_tim` (the section byte
counts written by `convert_png_tim` are `len + 12`, so the raw sections are
recovered exactly, and the stored width is rescaled per the format flag). -/
def timOfOut (d : OutDict) : TimData :=
  { format4 := d.tim_format4
    clut_coord_x := d.clut_coord_x
    clut_coord_y := d.clut_coord_y
    clut_size_x := d.clut_size_x
    clut_size_y := d.clut_size_y
    clut_data := d.common_clut
    pixel_coord_x := d.pixel_coord_x
    pixel_coord_y := d.pixel_coord_y
    pixel_data_width := parse_true_width d.tim_format4 d.stored_width_value
    pixel_data_height := d.height
    pixel_data := d.new_pixel_data }

/-- A 4-bit TIM as established by `read_tim`: 4-bit format flag, true width
a multiple of 4 (it is `stored * 4`), pixel bytes covering the raster, and a
declared CLUT holding at least the 16 entries a 4-bit index can reach
(a zero grid falls back to the 16-entry default). -/
def ValidTim4 (t : TimData) : Prop :=
  t.format4 = true ∧ 4 ∣ t.pixel_data_width ∧
    t.pixel_data.length = t.pixel_data_height * (t.pixel_data_width / 2) ∧
    16 ≤ clut_expected_of t.clut_size_x t.clut_size_y 16

instance (t : TimData) : Decidable (ValidTim4 t) := by
  unfold ValidTim4; infer_instance

/-- The palette-extraction loop of `compute_group_palette` (ui_actions.py
lines 253-255): `for i in range(0, m, 3)` reading triples
`(flat[i], flat[i+1], flat[i+2])`; the Python range has `(m + 2) / 3`
elements `0, 3, 6, ...`. -/
def tripleLoop (flat : List Nat) (m : Nat) : List Rgb :=
  (List.range' 0 ((m + 2) / 3) 3).map
    (fun i => (flat.getD i 0, flat.getD (i + 1) 0, flat.getD (i + 2) 0))

/-- `compute_group_palette` (ui_actions.py lines 251-258) downstream of the
quantizer: `flat` is the flat palette list returned by
`pal_img.getpalette()` (an external collaborator), the loop reads at most
`palette_size` triples, and the result is padded with black to exactly
`palette_size` entries. -/
def compute_group_palette (flat : List Nat) (palette_size : Nat) : List Rgb :=
  let pal := tripleLoop flat (min flat.length (palette_size * 3))
  pal ++ List.replicate (palette_size - pal.length) (0, 0, 0)

/-- Lower-casing used for the extension match in `load_tim_files`
(ui_actions.py line 33), written on the underlying character list so that
it evaluates by kernel reduction. -/
def lowerStr (s : String) : String := ⟨s.data.map Char.toLower⟩

instance {ε α : Type} [DecidableEq ε] [DecidableEq α] : DecidableEq (Except ε α) := fun x y =>
  match x, y with
  | .ok a, .ok b =>
    if h : a = b then .isTrue (by rw [h]) else .isFalse (by simp [h])
  | .error a, .error b =>
    if h : a = b then .isTrue (by rw [h]) else .isFalse (by simp [h])
  | .ok _, .error _ => .isFalse (by simp)
  | .error _, .ok _ => .isFalse (by simp)

/-- The directory scan loop of `load_tim_files` (ui_actions.py lines 32-46)
over `(stem, suffix)` pairs: files whose lower-cased suffix is not `.tim`
are skipped, a stem already present in the accumulated key list raises the
duplicate error, and an empty final key list raises the no-files error. -/
def loadKeysAux : List (String × String) → List String → Except String (List String)
  | [], acc =>
    if acc.isEmpty then .error "Source folder does not contain .tim files" else .ok acc
  | (stem, suffix) :: rest, acc =>
    if lowerStr suffix ≠ ".tim" then loadKeysAux rest acc
    else if stem ∈ acc then .error ("Duplikat nazwy TIM: " ++ stem)
    else loadKeysAux rest (acc ++ [stem])

/-- `load_tim_files` restricted to the key set it builds: the input is the
directory listing as `(stem, suffix)` pairs in iteration order. -/
def load_tim_files (files : List (String × String)) : Except String (List String) :=
  loadKeysAux files []

example : clut_expected_of 0 5 16 = 16 := by decide
example : clut_expected_of 8 1 16 = 8 := by decide
example : nearest_index [(0,0,0), (8,8,8)] (7,7,7) = 1 := by decide
example : nearest_index [(0,0,0), (0,0,0)] (1,1,1) = 0 := by decide
example : pack4 4 1 [1, 2, 3, 4] = [0x21, 0x43] := by decide
example : clutSection [(8,16,24)] 3 = [0x41, 0x0C, 0x41, 0x0C, 0x41, 0x0C] := by decide
example : clutSection [(8,16,24), (0,0,0)] 1 = [0x41, 0x0C] := by decide
example : compute_group_palette [1,2,3,4,5,6] 3 = [(1,2,3),(4,5,6),(0,0,0)] := by decide
example : compute_group_palette [1,2,3,4,5,6] 1 = [(1,2,3)] := by decide
example : load_tim_files [("a", ".tim"), ("A", ".tim")] = .ok ["a", "A"] := by decide
example : load_tim_files [("a", ".tim"), ("a", ".TIM")] = .error "Duplikat nazwy TIM: a" := by decide
example : load_tim_files [("a", ".txt")] = .error "Source folder does not contain .tim files" := by decide

/-- A concrete 4-bit TIM used by the closed witness theorems: a 4 by 1
raster with pixel bytes `0x10 0x32` (indices 0,1,2,3) and a 16-entry
CLUT whose entry `i` is the raw 15-bit value `i`. -/
def timA : TimData :=
  { format4 := true
    clut_coord_x := 0
    clut_coord_y := 0
    clut_size_x := 16
    clut_size_y := 1
    clut_data := (List.range 16).flatMap (fun i => [i, 0])
    pixel_coord_x := 0
    pixel_coord_y := 0
    pixel_data_width := 4
    pixel_data_height := 1
    pixel_data := [0x10, 0x32] }

example : decodeRaster4 timA =
    [clutColorOfEntry 0, clutColorOfEntry 1, clutColorOfEntry 2, clutColorOfEntry 3] := by
  decide

/-! ### Arithmetic and bitwise helper lemmas -/

lemma and_fifteen_eq_mod (n : Nat) : n &&& 0x0F = n % 16 := by
  have h := Nat.and_pow_two_sub_one_eq_mod n 4
  norm_num at h
  exact h

lemma and_ff_eq_mod (n : Nat) : n &&& 0xFF = n % 256 := by
  have h := Nat.and_pow_two_sub_one_eq_mod n 8
  norm_num at h
  exact h

lemma and_thirtyone_eq_mod (n : Nat) : n &&& 0x1F = n % 32 := by
  have h := Nat.and_pow_two_sub_one_eq_mod n 5
  norm_num at h
  exact h

lemma nibble_unpack : ∀ a < 16, ∀ b < 16,
    ((a <<< 4) ||| b) &&& 0x0F = b ∧ (((a <<< 4) ||| b) >>> 4) &&& 0x0F = a ∧
      ((a <<< 4) ||| b) < 256 := by
  decide

/-- Shifting left distributes over bitwise or. -/
lemma shiftLeft_or_distrib (p q k : Nat) : (p ||| q) <<< k = (p <<< k) ||| (q <<< k) := by
  apply Nat.eq_of_testBit_eq
  intro j
  simp only [Nat.testBit_shiftLeft, Nat.testBit_or]
  cases Nat.decLe k j with
  | isTrue h => simp [h]
  | isFalse h => simp [h]

/-- Shifting out a low field below an or-ed high field recovers the high
field. -/
lemma or_high_shiftRight (k a x : Nat) (h : a < 2 ^ k) :
    (a ||| (x <<< k)) >>> k = x := by
  apply Nat.eq_of_testBit_eq
  intro j
  have ha : a.testBit (k + j) = false :=
    Nat.testBit_lt_two_pow (lt_of_lt_of_le h (Nat.pow_le_pow_right (by norm_num) (by omega)))
  simp [Nat.testBit_shiftRight, Nat.testBit_or, Nat.testBit_shiftLeft, ha,
    Nat.le_add_right, Nat.add_sub_cancel_left]

/-- Masking off the high field of an or recovers the low field. -/
lemma or_high_mask (k a x : Nat) (h : a < 2 ^ k) :
    (a ||| (x <<< k)) &&& (2 ^ k - 1) = a := by
  rw [Nat.and_distrib_right, Nat.and_pow_two_sub_one_eq_mod,
    Nat.and_pow_two_sub_one_eq_mod, Nat.shiftLeft_eq, Nat.mul_mod_left,
    Nat.mod_eq_of_lt h, Nat.or_zero]

/-- Re-quantizing to 5 bits and unpacking is the identity on colors whose
components are already of the shape produced by `clutColorOfEntry`. -/
lemma packColor_components (a b c : Nat) (ha : a < 32) (hb : b < 32) (hc : c < 32) :
    clutColorOfEntry (packColor (a <<< 3, b <<< 3, c <<< 3)) = (a <<< 3, b <<< 3, c <<< 3) := by
  have h8 : ∀ x, x < 32 → (x <<< 3) >>> 3 &&& 0x1F = x := by
    intro x hx
    rw [Nat.shiftLeft_eq, Nat.shiftRight_eq_div_pow, Nat.mul_div_cancel _ (by norm_num),
      and_thirtyone_eq_mod, Nat.mod_eq_of_lt hx]
  have hpack : packColor (a <<< 3, b <<< 3, c <<< 3) = a ||| ((b ||| (c <<< 5)) <<< 5) := by
    simp only [packColor, h8 a ha, h8 b hb, h8 c hc]
    rw [shiftLeft_or_distrib, ← Nat.shiftLeft_add, Nat.or_assoc]
  have h31 : (31 : Nat) = 2 ^ 5 - 1 := by norm_num
  have h32 : (32 : Nat) = 2 ^ 5 := by norm_num
  have hlow : packColor (a <<< 3, b <<< 3, c <<< 3) &&& 0x1F = a := by
    rw [hpack]
    have := or_high_mask 5 a (b ||| (c <<< 5)) (h32 ▸ ha)
    simpa using this
  have hhigh : packColor (a <<< 3, b <<< 3, c <<< 3) >>> 5 = b ||| (c <<< 5) := by
    rw [hpack]
    exact or_high_shiftRight 5 a _ (h32 ▸ ha)
  have hmid : (packColor (a <<< 3, b <<< 3, c <<< 3) >>> 5) &&& 0x1F = b := by
    rw [hhigh]
    have := or_high_mask 5 b c (h32 ▸ hb)
    simpa using this
  have htop : (packColor (a <<< 3, b <<< 3, c <<< 3) >>> 10) &&& 0x1F = c := by
    have h10 : (10 : Nat) = 5 + 5 := by norm_num
    rw [h10, Nat.shiftRight_add, hhigh, or_high_shiftRight 5 b c (h32 ▸ hb),
      and_thirtyone_eq_mod, Nat.mod_eq_of_lt hc]
  simp only [clutColorOfEntry, hlow, hmid, htop]

/-- Packing then unpacking a decoded CLUT color gives the color back. -/
lemma clutColor_pack_roundtrip (e : Nat) :
    clutColorOfEntry (packColor (clutColorOfEntry e)) = clutColorOfEntry e := by
  have h1 : e &&& 0x1F < 32 := by rw [and_thirtyone_eq_mod]; omega
  have h2 : (e >>> 5) &&& 0x1F < 32 := by rw [and_thirtyone_eq_mod]; omega
  have h3 : (e >>> 10) &&& 0x1F < 32 := by rw [and_thirtyone_eq_mod]; omega
  exact packColor_components _ _ _ h1 h2 h3

/-! ### List indexing helper lemmas -/

lemma getD_map_range {α : Type} (n : Nat) (f : Nat → α) (d : α) (m : Nat) (hm : m < n) :
    ((List.range n).map f).getD m d = f m := by
  simp [List.getD_eq_getElem?_getD, List.getElem?_range, hm]

lemma row_col_lt (y h q x2 : Nat) (hy : y < h) (hx : x2 < q) : y * q + x2 < h * q :=
  calc y * q + x2 < y * q + q := by omega
    _ = (y + 1) * q := by ring
    _ ≤ h * q := Nat.mul_le_mul_right q hy

lemma div_mod_decompose (y q r : Nat) (hr : r < q) :
    (y * q + r) / q = y ∧ (y * q + r) % q = r := by
  have hq : 0 < q := by omega
  constructor
  · rw [Nat.mul_comm y q, Nat.add_comm, Nat.add_mul_div_left _ _ hq,
      Nat.div_eq_of_lt hr, Nat.zero_add]
  · rw [Nat.mul_comm y q, Nat.add_comm, Nat.add_mul_mod_self_left, Nat.mod_eq_of_lt hr]

lemma flatMapPair_length {α : Type} (pal : List α) (f g : α → Nat) :
    (pal.flatMap (fun c => [f c, g c])).length = 2 * pal.length := by
  induction pal with
  | nil => simp
  | cons c cs ih => simp [ih]; omega

lemma flatMapPair_getD {α : Type} [Inhabited α] (f g : α → Nat) :
    ∀ (pal : List α) (i : Nat), i < pal.length →
      (pal.flatMap (fun c => [f c, g c])).getD (2 * i) 0 = f (pal.getD i default) ∧
      (pal.flatMap (fun c => [f c, g c])).getD (2 * i + 1) 0 = g (pal.getD i default)
  | [], i, hi => by simp at hi
  | c :: cs, 0, _ => by simp
  | c :: cs, i + 1, hi => by
    have ih := flatMapPair_getD f g cs i (by simpa using hi)
    have h2 : 2 * (i + 1) = 2 * i + 1 + 1 := by omega
    simp only [List.flatMap_cons, List.cons_append, List.nil_append, h2, List.getD_cons_succ,
      List.getD_cons_succ]
    simpa using ih

/-! ### Section-builder helper lemmas -/

lemma clutSection_length (pal : List Rgb) (e : Nat) :
    (clutSection pal e).length = 2 * e := by
  unfold clutSection
  have hbase : (pal.flatMap fun c => [packColor c % 256, packColor c / 256]).length
      = 2 * pal.length := flatMapPair_length pal _ _
  set base := pal.flatMap fun c => [packColor c % 256, packColor c / 256] with hbdef
  by_cases hlt : base.length < 2 * e
  · have hflat : ∀ (l : List Nat), l.length = 2 →
        ((List.replicate (e - pal.length) l).flatten).length = 2 * (e - pal.length) := by
      intro l hl
      induction (e - pal.length) with
      | zero => simp
      | succ n ih => simp [List.replicate_succ, ih, hl]; omega
    simp only [hlt, if_pos]
    rw [List.length_append]
    rw [hflat _ (by split <;> simp)]
    omega
  · simp only [hlt, if_neg, not_false_iff]
    rw [List.length_take]
    omega

lemma clutSection_getD_of_lt (pal : List Rgb) (e i : Nat)
    (hi : i < pal.length) (he : pal.length ≤ e) :
    (clutSection pal e).getD (2 * i) 0 = packColor (pal.getD i (0, 0, 0)) % 256 ∧
    (clutSection pal e).getD (2 * i + 1) 0 = packColor (pal.getD i (0, 0, 0)) / 256 := by
  unfold clutSection
  have hbase : (pal.flatMap fun c => [packColor c % 256, packColor c / 256]).length
      = 2 * pal.length := flatMapPair_length pal _ _
  set base := pal.flatMap fun c => [packColor c % 256, packColor c / 256] with hbdef
  have hget : base.getD (2 * i) 0 = packColor (pal.getD i (0, 0, 0)) % 256 ∧
      base.getD (2 * i + 1) 0 = packColor (pal.getD i (0, 0, 0)) / 256 := by
    have := flatMapPair_getD (fun c => packColor c % 256) (fun c => packColor c / 256) pal i hi
    simpa [hbdef] using this
  have hlt1 : 2 * i < base.length := by omega
  have hlt2 : 2 * i + 1 < base.length := by omega
  by_cases hlt : base.length < 2 * e
  · simp only [hlt, if_pos]
    constructor
    · rw [List.getD_eq_getElem?_getD, List.getElem?_append_left hlt1,
        ← List.getD_eq_getElem?_getD]
      exact hget.1
    · rw [List.getD_eq_getElem?_getD, List.getElem?_append_left hlt2,
        ← List.getD_eq_getElem?_getD]
      exact hget.2
  · simp only [hlt, if_neg, not_false_iff]
    constructor
    · rw [List.getD_eq_getElem?_getD, List.getElem?_take_of_lt (by omega : 2 * i < 2 * e),
        ← List.getD_eq_getElem?_getD]
      exact hget.1
    · rw [List.getD_eq_getElem?_getD,
        List.getElem?_take_of_lt (by omega : 2 * i + 1 < 2 * e),
        ← List.getD_eq_getElem?_getD]
      exact hget.2

lemma pack4_length (w h : Nat) (idxs : List Nat) :
    (pack4 w h idxs).length = h * (w / 2) := by
  simp [pack4]

lemma pack4_getD (w h : Nat) (idxs : List Nat) (m : Nat) (hm : m < h * (w / 2)) :
    (pack4 w h idxs).getD m 0 =
      ((idxs.getD ((m / (w / 2)) * w + 2 * (m % (w / 2)) + 1) 0 &&& 0x0F) <<< 4) |||
        (idxs.getD ((m / (w / 2)) * w + 2 * (m % (w / 2))) 0 &&& 0x0F) := by
  unfold pack4
  rw [getD_map_range _ _ _ m hm]

lemma tripleLoop_length (flat : List Nat) (m : Nat) :
    (tripleLoop flat m).length = (m + 2) / 3 := by
  simp [tripleLoop]

/-! ### Nearest-index argmin helper lemmas -/

lemma nearestFrom_spec (px : Rgb) :
    ∀ (rest : List Rgb) (i bi : Nat) (bd : Int),
      (nearestFrom px rest i bi bd = (bi, bd) ∧
        ∀ k (hk : k < rest.length), bd ≤ sqDist px rest[k]) ∨
      (∃ k, ∃ hk : k < rest.length,
        nearestFrom px rest i bi bd = (i + k, sqDist px rest[k]) ∧
        sqDist px rest[k] < bd ∧
        (∀ m (hm : m < rest.length), sqDist px rest[k] ≤ sqDist px rest[m]) ∧
        (∀ m, m < k → ∀ (hm : m < rest.length), sqDist px rest[k] < sqDist px rest[m])) := by
  intro rest
  induction rest with
  | nil =>
    intro i bi bd
    left
    constructor
    · rfl
    · intro k hk
      simp at hk
  | cons c cs ih =>
    intro i bi bd
    by_cases hlt : sqDist px c < bd
    · rcases ih (i + 1) i (sqDist px c) with ⟨heq, hmin⟩ | ⟨k, hk, heq, hlt2, hmin, hstrict⟩
      · right
        refine ⟨0, by simp, ?_, ?_, ?_, ?_⟩
        · simpa [nearestFrom, hlt] using heq
        · simpa using hlt
        · intro m hm
          match m with
          | 0 => simp
          | m + 1 =>
            simpa using hmin m (by simpa using hm)
        · intro m hm
          omega
      · right
        refine ⟨k + 1, by simpa using hk, ?_, ?_, ?_, ?_⟩
        · have harith : i + 1 + k = i + (k + 1) := by omega
          simpa [nearestFrom, hlt, harith] using heq
        · have h1 : sqDist px cs[k] < bd := lt_trans hlt2 hlt
          simpa using h1
        · intro m hm
          match m with
          | 0 =>
            simpa using le_of_lt hlt2
          | m + 1 =>
            simpa using hmin m (by simpa using hm)
        · intro m hm hm2
          match m with
          | 0 =>
            simpa using hlt2
          | m + 1 =>
            simpa using hstrict m (by omega) (by simpa using hm2)
    · rcases ih (i + 1) bi bd with ⟨heq, hmin⟩ | ⟨k, hk, heq, hlt2, hmin, hstrict⟩
      · left
        constructor
        · simpa [nearestFrom, hlt] using heq
        · intro k hk
          match k with
          | 0 => simpa using le_of_not_lt hlt
          | k + 1 => simpa using hmin k (by simpa using hk)
      · right
        refine ⟨k + 1, by simpa using hk, ?_, ?_, ?_, ?_⟩
        · have harith : i + 1 + k = i + (k + 1) := by omega
          simpa [nearestFrom, hlt, harith] using heq
        · simpa using hlt2
        · intro m hm
          match m with
          | 0 =>
            have : sqDist px cs[k] < sqDist px c := lt_of_lt_of_le hlt2 (le_of_not_lt hlt)
            simpa using le_of_lt this
          | m + 1 =>
            simpa using hmin m (by simpa using hm)
        · intro m hm hm2
          match m with
          | 0 =>
            simpa using lt_of_lt_of_le hlt2 (le_of_not_lt hlt)
          | m + 1 =>
            simpa using hstrict m (by omega) (by simpa using hm2)

/-- The index chosen by `nearest_index` is in range, attains the minimum
squared distance, and is the least index attaining it. -/
lemma nearest_index_spec (pal : List Rgb) (px : Rgb) (h : pal ≠ []) :
    nearest_index pal px < pal.length ∧
    (∀ j (hj : j < pal.length),
      sqDist px (pal.getD (nearest_index pal px) (0, 0, 0)) ≤ sqDist px pal[j]) ∧
    (∀ j (hj : j < pal.length),
      sqDist px pal[j] = sqDist px (pal.getD (nearest_index pal px) (0, 0, 0)) →
        nearest_index pal px ≤ j) := by
  match pal with
  | [] => exact absurd rfl h
  | c0 :: rest =>
    rcases nearestFrom_spec px rest 1 0 (sqDist px c0) with
      ⟨heq, hmin⟩ | ⟨k, hk, heq, hlt2, hmin, hstrict⟩
    · have hidx : nearest_index (c0 :: rest) px = 0 := by
        simp [nearest_index, heq]
      refine ⟨by simp [hidx], ?_, ?_⟩
      · intro j hj
        match j with
        | 0 => simp [hidx]
        | j + 1 =>
          simpa [hidx] using hmin j (by simpa using hj)
      · intro j hj _
        simp [hidx]
    · have hidx : nearest_index (c0 :: rest) px = 1 + k := by
        simp [nearest_index, heq]
      have hgd : (c0 :: rest).getD (nearest_index (c0 :: rest) px) (0, 0, 0) = rest[k] := by
        rw [hidx]
        have h1k : 1 + k = k + 1 := by omega
        rw [h1k, List.getD_cons_succ]
        exact List.getD_eq_getElem rest (0, 0, 0) hk
      refine ⟨?_, ?_, ?_⟩
      · simp only [hidx, List.length_cons]
        omega
      · intro j hj
        rw [hgd]
        match j with
        | 0 => simpa using le_of_lt hlt2
        | j + 1 => simpa using hmin j (by simpa using hj)
      · intro j hj hje
        rw [hgd] at hje
        match j with
        | 0 =>
          simp only [List.getElem_cons_zero] at hje
          omega
        | j + 1 =>
          simp only [List.getElem_cons_succ] at hje
          by_cases hjk : j < k
          · have := hstrict j hjk (by simpa using hj)
            omega
          · omega

lemma sqDist_nonneg (p q : Rgb) : 0 ≤ sqDist p q := by
  unfold sqDist
  positivity

lemma sqDist_self (p : Rgb) : sqDist p p = 0 := by
  simp [sqDist]

lemma sqDist_eq_zero_iff (p q : Rgb) : sqDist p q = 0 ↔ p = q := by
  obtain ⟨p1, p2, p3⟩ := p
  obtain ⟨q1, q2, q3⟩ := q
  constructor
  · intro h
    simp only [sqDist] at h
    have h1 := sq_nonneg ((p1 : Int) - q1)
    have h2 := sq_nonneg ((p2 : Int) - q2)
    have h3 := sq_nonneg ((p3 : Int) - q3)
    have e1 : ((p1 : Int) - q1) ^ 2 = 0 := by linarith
    have e2 : ((p2 : Int) - q2) ^ 2 = 0 := by linarith
    have e3 : ((p3 : Int) - q3) ^ 2 = 0 := by linarith
    have f1 : (p1 : Int) = q1 := by
      have := pow_eq_zero_iff (n := 2) (by norm_num) |>.mp e1
      omega
    have f2 : (p2 : Int) = q2 := by
      have := pow_eq_zero_iff (n := 2) (by norm_num) |>.mp e2
      omega
    have f3 : (p3 : Int) = q3 := by
      have := pow_eq_zero_iff (n := 2) (by norm_num) |>.mp e3
      omega
    have g1 : p1 = q1 := by exact_mod_cast f1
    have g2 : p2 = q2 := by exact_mod_cast f2
    have g3 : p3 = q3 := by exact_mod_cast f3
    simp [g1, g2, g3]
  · intro h
    rw [h]
    simp [sqDist]

/-- If some palette entry equals the pixel color exactly, the chosen nearest
entry also equals the pixel color exactly. -/
lemma nearest_index_exact (pal : List Rgb) (px : Rgb) (h : pal ≠ [])
    (hmem : px ∈ pal) : pal.getD (nearest_index pal px) (0, 0, 0) = px := by
  obtain ⟨j, hj, hje⟩ := List.mem_iff_getElem.mp hmem
  obtain ⟨hlt, hmin, _⟩ := nearest_index_spec pal px h
  have h0 : sqDist px pal[j] = 0 := by rw [hje]; exact sqDist_self px
  have h1 := hmin j hj
  have h2 := sqDist_nonneg px (pal.getD (nearest_index pal px) (0, 0, 0))
  have h3 : sqDist px (pal.getD (nearest_index pal px) (0, 0, 0)) = 0 := by omega
  exact ((sqDist_eq_zero_iff _ _).mp h3).symm

lemma zipWith_getD {α β γ : Type} (f : α → β → γ) (l1 : List α) (l2 : List β)
    (k : Nat) (d : γ) (dl : α) (dr : β) (h1 : k < l1.length) (h2 : k < l2.length) :
    (List.zipWith f l1 l2).getD k d = f (l1.getD k dl) (l2.getD k dr) := by
  rw [List.getD_eq_getElem?_getD, List.getElem?_zipWith,
    List.getElem?_eq_getElem h1, List.getElem?_eq_getElem h2,
    List.getD_eq_getElem _ _ h1, List.getD_eq_getElem _ _ h2]
  rfl

/-! ### Claim theorems -/

/-- C3: `storedWidth × 4 == trueWidth` for the 4-bit depth and
`storedWidth × 2 == trueWidth` for the 8-bit depth: `read_tim` establishes
the true width by scaling the on-disk field, re-encode recomputes the stored
field as `trueWidth / 4` or `trueWidth / 2`, and for a parsed 4-bit TIM the
width survives the write/reparse round trip. -/
theorem stored_width_scaling (stored : Nat) (t : TimData) (pal : List Rgb) :
    parse_true_width true stored = stored * 4 ∧
    parse_true_width false stored = stored * 2 ∧
    encode_stored_width true (stored * 4) = stored ∧
    encode_stored_width false (stored * 2) = stored ∧
    (4 ∣ t.pixel_data_width →
      (timOfOut (convert_png_tim_member4 t pal)).pixel_data_width = t.pixel_data_width) := by
  refine ⟨rfl, rfl, ?_, ?_, ?_⟩
  · simp [encode_stored_width]
  · simp [encode_stored_width]
  · intro hdvd
    simp only [timOfOut, convert_png_tim_member4, parse_true_width, encode_stored_width,
      if_pos]
    exact Nat.div_mul_cancel hdvd

/-- Witness for C3 at the concrete TIM `timA` (width 4). -/
theorem stored_width_scaling_witness :
    (timOfOut (convert_png_tim_member4 timA [])).pixel_data_width = timA.pixel_data_width :=
  (stored_width_scaling 1 timA []).2.2.2.2 (by decide)

/-- C4: for every pixel and non-empty palette, `nearest_index` returns an
in-range index attaining the minimum squared Euclidean distance over all
palette entries, and among equal-distance entries it returns the lowest
index. -/
theorem nearest_index_minimizes (pal : List Rgb) (px : Rgb) (h : pal ≠ []) :
    nearest_index pal px < pal.length ∧
    (∀ j (hj : j < pal.length),
      sqDist px (pal.getD (nearest_index pal px) (0, 0, 0)) ≤ sqDist px pal[j]) ∧
    (∀ j (hj : j < pal.length),
      sqDist px pal[j] = sqDist px (pal.getD (nearest_index pal px) (0, 0, 0)) →
        nearest_index pal px ≤ j) :=
  nearest_index_spec pal px h

/-- Witness for C4: on a palette with a distance tie the lowest index wins. -/
theorem nearest_index_minimizes_witness :
    nearest_index [(0, 0, 0), (3, 3, 3), (3, 3, 3)] (2, 2, 2) ≤ 1 ∧
    nearest_index [(0, 0, 0), (3, 3, 3), (3, 3, 3)] (2, 2, 2) < 3 := by
  have h := nearest_index_minimizes [(0, 0, 0), (3, 3, 3), (3, 3, 3)] (2, 2, 2) (by decide)
  refine ⟨h.2.2 1 (by decide) (by decide), by simpa using h.1⟩

/-- C5: a source pixel with alpha strictly below 128 is forced to palette
index 0 regardless of its nearest color; a pixel with alpha at least 128
keeps its nearest-color index (exactly so whenever the palette has at most
256 entries, as every group palette does). -/
theorem transparency_forces_index0 (pal : List Rgb) (pixels : List Rgb)
    (alphas : List Nat) (k : Nat) (h1 : k < pixels.length) (h2 : k < alphas.length) :
    (encodeIndexes pal pixels alphas).getD k 0 =
      (if alphas.getD k 0 < 128 then 0
       else nearest_index pal (pixels.getD k (0, 0, 0)) &&& 0xFF) ∧
    (128 ≤ alphas.getD k 0 → pal ≠ [] → pal.length ≤ 256 →
      (encodeIndexes pal pixels alphas).getD k 0
        = nearest_index pal (pixels.getD k (0, 0, 0))) := by
  have h1m : k < (pixels.map (fun px => nearest_index pal px &&& 0xFF)).length := by
    simpa using h1
  have hbase : (encodeIndexes pal pixels alphas).getD k 0 =
      (if alphas.getD k 0 < 128 then 0
       else nearest_index pal (pixels.getD k (0, 0, 0)) &&& 0xFF) := by
    unfold encodeIndexes
    rw [zipWith_getD _ _ _ k 0 0 0 h1m h2]
    congr 1
    rw [List.getD_eq_getElem _ _ h1m, List.getElem_map, ← List.getD_eq_getElem pixels (0, 0, 0)]
  refine ⟨hbase, ?_⟩
  intro halpha hne hlen
  rw [hbase, if_neg (by omega)]
  have hlt := (nearest_index_spec pal (pixels.getD k (0, 0, 0)) hne).1
  rw [and_ff_eq_mod, Nat.mod_eq_of_lt (by omega)]

/-- Witness for C5: alpha 127 forces index 0, alpha 200 keeps the nearest
index 1. -/
theorem transparency_forces_index0_witness :
    (encodeIndexes [(0, 0, 0), (10, 10, 10)] [(9, 9, 9), (9, 9, 9)] [127, 200]).getD 0 0 = 0 ∧
    (encodeIndexes [(0, 0, 0), (10, 10, 10)] [(9, 9, 9), (9, 9, 9)] [127, 200]).getD 1 0 = 1 := by
  have h0 := (transparency_forces_index0 [(0, 0, 0), (10, 10, 10)] [(9, 9, 9), (9, 9, 9)]
    [127, 200] 0 (by decide) (by decide)).1
  have h1 := (transparency_forces_index0 [(0, 0, 0), (10, 10, 10)] [(9, 9, 9), (9, 9, 9)]
    [127, 200] 1 (by decide) (by decide)).2 (by decide) (by decide) (by decide)
  refine ⟨by simpa using h0, by rw [h1]; decide⟩

/-- C6: the 4-bit encode path fails on an odd true width (never rounding),
and on an even width succeeds, producing one byte per two consecutive
x-indices (low nibble the even-x index, high nibble the odd-x index). -/
theorem encode4_odd_width_errors (w h : Nat) (idxs : List Nat) :
    (w % 2 ≠ 0 → encode4 w h idxs = .error "Width must be even for 4bpp") ∧
    (w % 2 = 0 →
      encode4 w h idxs = .ok (pack4 w h idxs) ∧
      (pack4 w h idxs).length = h * (w / 2) ∧
      ∀ m, m < h * (w / 2) →
        (pack4 w h idxs).getD m 0 =
          ((idxs.getD ((m / (w / 2)) * w + 2 * (m % (w / 2)) + 1) 0 &&& 0x0F) <<< 4) |||
            (idxs.getD ((m / (w / 2)) * w + 2 * (m % (w / 2))) 0 &&& 0x0F)) := by
  constructor
  · intro hw
    simp [encode4, hw]
  · intro hw
    exact ⟨by simp [encode4, hw], pack4_length w h idxs,
      fun m hm => pack4_getD w h idxs m hm⟩

/-- Witness for C6: width 3 errors, width 4 packs. -/
theorem encode4_odd_width_errors_witness :
    encode4 3 1 [1, 2, 3] = .error "Width must be even for 4bpp" ∧
    encode4 4 1 [1, 2, 3, 4] = .ok (pack4 4 1 [1, 2, 3, 4]) := by
  exact ⟨(encode4_odd_width_errors 3 1 [1, 2, 3]).1 (by decide),
    ((encode4_odd_width_errors 4 1 [1, 2, 3, 4]).2 (by decide)).1⟩

/-- C7: `compute_group_palette` always returns exactly `palette_size`
entries: when the quantizer flat list supplies at least that many colors the
result is the plain truncation, and when it supplies fewer the tail is
padded with black entries. -/
theorem compute_group_palette_exact_size (flat : List Nat) (N : Nat) :
    (compute_group_palette flat N).length = N ∧
    (3 * N ≤ flat.length → compute_group_palette flat N = tripleLoop flat (N * 3)) ∧
    (∀ i, (tripleLoop flat (min flat.length (N * 3))).length ≤ i → i < N →
      (compute_group_palette flat N).getD i (1, 1, 1) = (0, 0, 0)) := by
  have hlen : (tripleLoop flat (min flat.length (N * 3))).length
      = (min flat.length (N * 3) + 2) / 3 := tripleLoop_length _ _
  have hle : (tripleLoop flat (min flat.length (N * 3))).length ≤ N := by
    rw [hlen]; omega
  refine ⟨?_, ?_, ?_⟩
  · simp only [compute_group_palette, List.length_append, List.length_replicate]
    omega
  · intro h3
    have hmin : min flat.length (N * 3) = N * 3 := by omega
    have hfull : (tripleLoop flat (N * 3)).length = N := by
      rw [tripleLoop_length]; omega
    simp [compute_group_palette, hmin, hfull]
  · intro i hi hiN
    simp only [compute_group_palette, List.getD_eq_getElem?_getD]
    rw [List.getElem?_append_right hi, List.getElem?_replicate]
    rw [if_pos (by omega)]
    rfl

/-- Witness for C7: truncation at 2 of 3 quantized colors, black padding at
3 requested of 1 supplied. -/
theorem compute_group_palette_exact_size_witness :
    compute_group_palette [1, 2, 3, 4, 5, 6, 7, 8, 9] 2
        = tripleLoop [1, 2, 3, 4, 5, 6, 7, 8, 9] 6 ∧
    (compute_group_palette [1, 2, 3] 3).getD 2 (1, 1, 1) = (0, 0, 0) := by
  exact ⟨(compute_group_palette_exact_size [1, 2, 3, 4, 5, 6, 7, 8, 9] 2).2.1 (by decide),
    (compute_group_palette_exact_size [1, 2, 3] 3).2.2 2 (by decide) (by decide)⟩

/-- C9: when the declared CLUT grid product is zero the re-encoder writes a
palette section sized by the depth default (16 entries for 4-bit, 256 for
8-bit); a non-zero declared product is used as written. -/
theorem clut_expected_zero_default (t : TimData) (pal : List Rgb) :
    (t.clut_size_x * t.clut_size_y = 0 →
      memberClut t pal = clutSection pal (paletteSizeOf t.format4) ∧
      (t.format4 = true → (memberClut t pal).length = 2 * 16) ∧
      (t.format4 = false → (memberClut t pal).length = 2 * 256)) ∧
    (t.clut_size_x * t.clut_size_y ≠ 0 →
      (memberClut t pal).length = 2 * (t.clut_size_x * t.clut_size_y)) := by
  constructor
  · intro h0
    refine ⟨by simp [memberClut, clut_expected_of, h0], ?_, ?_⟩
    · intro h4
      rw [memberClut, clutSection_length, clut_expected_of, if_pos h0, h4, paletteSizeOf,
        if_pos rfl]
    · intro h8
      rw [memberClut, clutSection_length, clut_expected_of, if_pos h0, h8, paletteSizeOf,
        if_neg (by simp)]
  · intro h0
    rw [memberClut, clutSection_length, clut_expected_of, if_neg h0]

/-- Witness for C9 at a zero 4-bit grid and a non-zero 8-entry grid. -/
theorem clut_expected_zero_default_witness :
    (memberClut { timA with clut_size_x := 0 } []).length = 2 * 16 ∧
    (memberClut { timA with clut_size_x := 8 } []).length = 2 * 8 := by
  refine ⟨((clut_expected_zero_default { timA with clut_size_x := 0 } []).1
      (by decide)).2.1 (by decide), ?_⟩
  have h := (clut_expected_zero_default { timA with clut_size_x := 8 } []).2 (by decide)
  simpa using h

/-- C10: in the 4-bit path every computed index is masked with 0x0F before
nibble packing: the packing is total (no error) for arbitrary index values,
each stored nibble is the index reduced modulo 16, and every output byte is
a valid byte. -/
theorem encode4_masks_indices (w h : Nat) (idxs : List Nat) (m : Nat) (hw : w % 2 = 0) :
    encode4 w h idxs = .ok (pack4 w h idxs) ∧
    (m < h * (w / 2) →
      (pack4 w h idxs).getD m 0 &&& 0x0F
          = idxs.getD ((m / (w / 2)) * w + 2 * (m % (w / 2))) 0 % 16 ∧
      ((pack4 w h idxs).getD m 0 >>> 4) &&& 0x0F
          = idxs.getD ((m / (w / 2)) * w + 2 * (m % (w / 2)) + 1) 0 % 16 ∧
      (pack4 w h idxs).getD m 0 < 256) := by
  constructor
  · simp [encode4, hw]
  · intro hm
    rw [pack4_getD w h idxs m hm]
    have ha : idxs.getD ((m / (w / 2)) * w + 2 * (m % (w / 2)) + 1) 0 &&& 0x0F < 16 := by
      rw [and_fifteen_eq_mod]; omega
    have hb : idxs.getD ((m / (w / 2)) * w + 2 * (m % (w / 2))) 0 &&& 0x0F < 16 := by
      rw [and_fifteen_eq_mod]; omega
    obtain ⟨h1, h2, h3⟩ := nibble_unpack _ ha _ hb
    refine ⟨?_, ?_, h3⟩
    · rw [h1, and_fifteen_eq_mod]
    · rw [h2, and_fifteen_eq_mod]

/-- Witness for C10: an out-of-range index 300 is stored as 300 mod 16 = 12
without any error. -/
theorem encode4_masks_indices_witness :
    encode4 4 1 [20, 300, 7, 100] = .ok (pack4 4 1 [20, 300, 7, 100]) ∧
    (pack4 4 1 [20, 300, 7, 100]).getD 0 0 &&& 0x0F = 20 % 16 ∧
    ((pack4 4 1 [20, 300, 7, 100]).getD 0 0 >>> 4) &&& 0x0F = 300 % 16 := by
  have h := encode4_masks_indices 4 1 [20, 300, 7, 100] 0 (by decide)
  have h2 := h.2 (by decide)
  exact ⟨h.1, by simpa using h2.1, by simpa using h2.2.1⟩

/-- C1 counterexample: two TIMs in the same share-group (identical
`(format_flag, clut_coord_x, clut_coord_y)` key) that declare different
CLUT grids receive different palette sections even though the shared group
palette is identical — the group maximum is never computed. -/
theorem shared_palette_sections_differ_counterexample :
    groupKey timA = groupKey { timA with clut_size_x := 8 } ∧
    memberClut timA (compute_group_palette [] 16) ≠
      memberClut { timA with clut_size_x := 8 } (compute_group_palette [] 16) := by
  constructor
  · rfl
  · decide

/-- C1 amended: two members of one share-group receive byte-identical CLUT
sections exactly when their expected slot counts coincide (the declared grid
product, or the depth default when that product is zero); each member's
section is the shared group palette padded or truncated to that member's own
expected count, of length twice that count — the group maximum is never
used. -/
theorem shared_palette_sections_same_expected (t1 t2 : TimData) (pal : List Rgb)
    (hkey : groupKey t1 = groupKey t2) :
    (memberClut t1 pal = memberClut t2 pal ↔
      clut_expected_of t1.clut_size_x t1.clut_size_y (paletteSizeOf t1.format4) =
        clut_expected_of t2.clut_size_x t2.clut_size_y (paletteSizeOf t2.format4)) ∧
    (memberClut t1 pal).length =
      2 * clut_expected_of t1.clut_size_x t1.clut_size_y (paletteSizeOf t1.format4) := by
  have hfmt : t1.format4 = t2.format4 := congrArg (fun p => p.1) hkey
  constructor
  · constructor
    · intro heq
      have hlen := congrArg List.length heq
      rw [memberClut, memberClut, clutSection_length, clutSection_length] at hlen
      omega
    · intro heq
      unfold memberClut
      rw [heq]
  · exact clutSection_length _ _

/-- Witness for the amended C1, both directions: a zero 0 by 0 grid and a
declared 16 by 1 grid expect 16 slots each and give byte-identical sections,
while grids expecting 16 and 8 slots give different sections. -/
theorem shared_palette_sections_same_expected_witness :
    memberClut { timA with clut_size_x := 0, clut_size_y := 0 } [(8, 8, 8)] =
      memberClut timA [(8, 8, 8)] ∧
    memberClut timA [(8, 8, 8)] ≠ memberClut { timA with clut_size_x := 8 } [(8, 8, 8)] :=
  ⟨((shared_palette_sections_same_expected { timA with clut_size_x := 0, clut_size_y := 0 }
      timA [(8, 8, 8)] rfl).1).mpr (by decide),
    fun h => absurd (((shared_palette_sections_same_expected timA
      { timA with clut_size_x := 8 } [(8, 8, 8)] rfl).1).mp h) (by decide)⟩

/-- C8 counterexample: a directory listing holding `a.tim` and `A.tim`,
whose stems differ only in letter case, loads without any duplicate error —
the keys are the exact stems and are distinct. -/
theorem load_case_duplicate_counterexample :
    load_tim_files [("a", ".tim"), ("A", ".tim")] = .ok ["a", "A"] := by
  decide

/-- C8 amended: base-name uniqueness is enforced on the exact
(case-sensitive) stem, while only the extension is matched
case-insensitively: every successful load returns pairwise-distinct stems,
and two files with the identical stem (here `a.tim` and `a.TIM`) raise the
duplicate-name error. -/
theorem load_stem_keys_nodup :
    (∀ (files : List (String × String)) (keys : List String),
      load_tim_files files = .ok keys → keys.Nodup) ∧
    load_tim_files [("a", ".tim"), ("a", ".TIM")] = .error "Duplikat nazwy TIM: a" := by
  constructor
  · have haux : ∀ (files : List (String × String)) (acc keys : List String),
        acc.Nodup → loadKeysAux files acc = .ok keys → keys.Nodup := by
      intro files
      induction files with
      | nil =>
        intro acc keys hnd h
        unfold loadKeysAux at h
        by_cases he : acc.isEmpty = true
        · rw [if_pos he] at h
          exact absurd h (by simp)
        · rw [if_neg he] at h
          injection h with h2
          exact h2 ▸ hnd
      | cons f rest ih =>
        intro acc keys hnd h
        obtain ⟨stem, suffix⟩ := f
        unfold loadKeysAux at h
        by_cases h1 : lowerStr suffix ≠ ".tim"
        · rw [if_pos h1] at h
          exact ih acc keys hnd h
        · rw [if_neg h1] at h
          by_cases h2 : stem ∈ acc
          · simp [h2] at h
          · rw [if_neg h2] at h
            refine ih (acc ++ [stem]) keys ?_ h
            simp [List.nodup_append, hnd, h2]
    intro files keys
    exact haux files [] keys (by simp)
  · decide

/-- Witness for the amended C8: the successful load of the differing-case
pair returns distinct keys. -/
theorem load_stem_keys_nodup_witness : (["a", "A"] : List String).Nodup :=
  load_stem_keys_nodup.1 [("a", ".tim"), ("A", ".tim")] ["a", "A"] (by decide)

/-! ### Round-trip supporting lemmas and theorem -/

lemma decodeRaster4_length (t : TimData) :
    (decodeRaster4 t).length = t.pixel_data_height * t.pixel_data_width := by
  simp [decodeRaster4]

lemma decodeRaster4_getD (t : TimData) (pos : Nat)
    (hpos : pos < t.pixel_data_height * t.pixel_data_width) :
    (decodeRaster4 t).getD pos (0, 0, 0) =
      decodePixel4 t (pos % t.pixel_data_width) (pos / t.pixel_data_width) := by
  unfold decodeRaster4
  exact getD_map_range _ _ _ pos hpos

/-- Modelled from the spec: the color quantizer behind
`compute_group_palette` (PIL `quantize` with MEDIANCUT over the thumbnail
mosaic) is an external black-box collaborator that the spec does not
redefine (spec section 6: "quantize an RGB raster to N colors, median-cut
or better, return an ordered color table", assumed correct).  The round-trip
property relies on exactly one consequence of that black box, stated here as
a predicate: the synthesized group palette contains every color occurring in
the member's decoded raster. -/
def QuantizerRecovers (pal : List Rgb) (raster : List Rgb) : Prop :=
  ∀ c ∈ raster, c ∈ pal

instance (pal raster : List Rgb) : Decidable (QuantizerRecovers pal raster) := by
  unfold QuantizerRecovers
  infer_instance

/-- C2: for every valid 4-bit TIM (even — indeed multiple-of-4 — true
width), re-encoding its own decoded raster through the import pipeline
against a 16-entry group palette that contains every raster color (the
spec's guarantee for the synthesized palette), then decoding the written
result, reproduces the decoded raster exactly.  The transparency policy is
vacuous here because decode emits a fully opaque alpha channel. -/
theorem roundtrip4_exact (t : TimData) (pal : List Rgb) (hv : ValidTim4 t)
    (hlen : pal.length = 16) (hcov : QuantizerRecovers pal (decodeRaster4 t)) :
    decodeRaster4 (timOfOut (convert_png_tim_member4 t pal)) = decodeRaster4 t := by
  obtain ⟨hf, hdvd, hplen, hclut⟩ := hv
  set w := t.pixel_data_width with hwdef
  set h := t.pixel_data_height with hhdef
  have hne : pal ≠ [] := by
    intro hnil
    rw [hnil] at hlen
    simp at hlen
  set idxs := encodeIndexes pal (decodeRaster4 t) (List.replicate (h * w) 255) with hidef
  have ht'w : (timOfOut (convert_png_tim_member4 t pal)).pixel_data_width = w := by
    simp only [timOfOut, convert_png_tim_member4, parse_true_width, encode_stored_width,
      if_pos]
    exact Nat.div_mul_cancel hdvd
  have ht'h : (timOfOut (convert_png_tim_member4 t pal)).pixel_data_height = h := rfl
  have ht'p : (timOfOut (convert_png_tim_member4 t pal)).pixel_data = pack4 w h idxs := rfl
  have ht'c : (timOfOut (convert_png_tim_member4 t pal)).clut_data
      = clutSection pal (clut_expected_of t.clut_size_x t.clut_size_y 16) := by
    show memberClut t pal = _
    rw [memberClut, hf]
    rfl
  have hidx : ∀ pos, pos < h * w →
      idxs.getD pos 0 = nearest_index pal (decodePixel4 t (pos % w) (pos / w)) ∧
        idxs.getD pos 0 < 16 := by
    intro pos hpos
    have hmap : pos < ((decodeRaster4 t).map
        (fun px => nearest_index pal px &&& 0xFF)).length := by
      rw [List.length_map, decodeRaster4_length]
      exact hpos
    have hrep : pos < (List.replicate (h * w) (255 : Nat)).length := by
      simpa using hpos
    have hg : idxs.getD pos 0 = nearest_index pal
        ((decodeRaster4 t).getD pos (0, 0, 0)) &&& 0xFF := by
      rw [hidef]
      unfold encodeIndexes
      rw [zipWith_getD _ _ _ pos 0 0 0 hmap hrep]
      rw [List.getD_eq_getElem _ _ hrep, List.getElem_replicate]
      rw [if_neg (by omega)]
      rw [List.getD_eq_getElem _ _ hmap, List.getElem_map,
        ← List.getD_eq_getElem (decodeRaster4 t) (0, 0, 0)]
    have hnear : nearest_index pal ((decodeRaster4 t).getD pos (0, 0, 0)) < 16 := by
      have hspec := (nearest_index_spec pal ((decodeRaster4 t).getD pos (0, 0, 0)) hne).1
      omega
    have hid : idxs.getD pos 0
        = nearest_index pal ((decodeRaster4 t).getD pos (0, 0, 0)) := by
      rw [hg, and_ff_eq_mod, Nat.mod_eq_of_lt (by omega)]
    rw [hid, decodeRaster4_getD t pos hpos]
    constructor
    · rfl
    · rw [decodeRaster4_getD t pos hpos] at hnear
      exact hnear
  unfold decodeRaster4
  rw [ht'w, ht'h]
  apply List.map_congr_left
  intro k hk
  rw [List.mem_range] at hk
  have hw0 : 0 < w := by
    rcases Nat.eq_zero_or_pos w with h0 | h0
    · rw [h0] at hk
      simp at hk
    · exact h0
  set x := k % w with hxdef
  set y := k / w with hydef
  have hx : x < w := Nat.mod_lt k hw0
  have hy : y < h := (Nat.div_lt_iff_lt_mul hw0).mpr (by omega)
  have hweven : w % 2 = 0 := by omega
  have hq0 : 0 < w / 2 := by omega
  have hx2 : x / 2 < w / 2 := by omega
  have hm : y * (w / 2) + x / 2 < h * (w / 2) := row_col_lt y h (w / 2) (x / 2) hy hx2
  have hdm := div_mod_decompose y (w / 2) (x / 2) hx2
  have hdxy := div_mod_decompose y w x hx
  have hixlt : nearest_index pal (decodePixel4 t x y) < 16 := by
    have hspec := (nearest_index_spec pal (decodePixel4 t x y) hne).1
    omega
  have hp1 := hidx (y * w + x) (row_col_lt y h w x hy hx)
  rw [hdxy.1, hdxy.2] at hp1
  have hb4 : pixByte4 (timOfOut (convert_png_tim_member4 t pal)) x y
      = ((idxs.getD (y * w + 2 * (x / 2) + 1) 0 &&& 0x0F) <<< 4) |||
        (idxs.getD (y * w + 2 * (x / 2)) 0 &&& 0x0F) := by
    unfold pixByte4
    rw [ht'p, ht'w, pack4_getD _ _ _ _ hm, hdm.1, hdm.2]
  have hbyte : pixIndex4 (timOfOut (convert_png_tim_member4 t pal)) x y
      = nearest_index pal (decodePixel4 t x y) := by
    have ha : idxs.getD (y * w + 2 * (x / 2) + 1) 0 &&& 0x0F < 16 := by
      rw [and_fifteen_eq_mod]
      omega
    have hb : idxs.getD (y * w + 2 * (x / 2)) 0 &&& 0x0F < 16 := by
      rw [and_fifteen_eq_mod]
      omega
    obtain ⟨hlow, hhigh, _⟩ := nibble_unpack _ ha _ hb
    unfold pixIndex4
    by_cases hpar : x % 2 = 0
    · have hpos : y * w + 2 * (x / 2) = y * w + x := by omega
      rw [if_pos hpar, hb4, hlow, hpos, hp1.1, and_fifteen_eq_mod,
        Nat.mod_eq_of_lt hixlt]
    · have hpos : y * w + 2 * (x / 2) + 1 = y * w + x := by omega
      rw [if_neg hpar, hb4, hhigh, hpos, hp1.1, and_fifteen_eq_mod,
        Nat.mod_eq_of_lt hixlt]
  have hmem : decodePixel4 t x y ∈ decodeRaster4 t := by
    unfold decodeRaster4
    apply List.mem_map.mpr
    exact ⟨k, List.mem_range.mpr hk, rfl⟩
  have hpal : pal.getD (nearest_index pal (decodePixel4 t x y)) (0, 0, 0)
      = decodePixel4 t x y :=
    nearest_index_exact pal _ hne (hcov _ hmem)
  have hentry : clutEntryAt (timOfOut (convert_png_tim_member4 t pal)).clut_data
      (nearest_index pal (decodePixel4 t x y)) = packColor (decodePixel4 t x y) := by
    rw [ht'c]
    unfold clutEntryAt
    have hgd := clutSection_getD_of_lt pal
      (clut_expected_of t.clut_size_x t.clut_size_y 16)
      (nearest_index pal (decodePixel4 t x y)) (by omega) (by omega)
    rw [hgd.1, hgd.2, hpal]
    omega
  show decodePixel4 (timOfOut (convert_png_tim_member4 t pal)) x y = decodePixel4 t x y
  unfold decodePixel4
  rw [hbyte, hentry]
  exact clutColor_pack_roundtrip (clutEntryAt t.clut_data (pixIndex4 t x y))

/-- A concrete 16-entry palette containing all four colors of `timA`'s
decoded raster. -/
def timPal : List Rgb :=
  [(0, 0, 0), (8, 0, 0), (16, 0, 0), (24, 0, 0), (0, 0, 0), (0, 0, 0), (0, 0, 0),
    (0, 0, 0), (0, 0, 0), (0, 0, 0), (0, 0, 0), (0, 0, 0), (0, 0, 0), (0, 0, 0),
    (0, 0, 0), (0, 0, 0)]

/-- Witness for C2 at the concrete TIM `timA` and palette `timPal`. -/
theorem roundtrip4_exact_witness :
    ValidTim4 timA ∧ timPal.length = 16 ∧ QuantizerRecovers timPal (decodeRaster4 timA) ∧
    decodeRaster4 (timOfOut (convert_png_tim_member4 timA timPal)) = decodeRaster4 timA :=
  ⟨by decide, by decide, by decide,
    roundtrip4_exact timA timPal (by decide) (by decide) (by decide)⟩
